import Mathlib

/-!
Shallow embedding of the Traffic-Flow-Analysis repository core:
`src/lane_counter.py` (lane assignment and per-lane counting),
`src/tracker.py` (detection-track reconciliation and IoU),
`src/utils.py` (CSV logging and timestamp formatting), and
`src/video_processor.py` / `src/main.py` (frame annotation label, streaming
loop, and resource lifecycle).

Python numbers appearing as box coordinates / confidences are modelled as
rationals (`ℚ`); Python `int(...)` truncation is `truncQ`; Python dicts are
association lists with first-occurrence lookup and in-place value update,
and a missing key (Python `KeyError`) surfaces as `Option.none`.
-/

/-- Integer 2D point, as passed to the point-in-polygon test. -/
abbrev PtI : Type := Int × Int

/-- A lane polygon: the ordered vertex list from the lanes dictionary. -/
abbrev Polygon : Type := List PtI

/-- Cross product of the vectors `a - o` and `b - o`. -/
def cross2 (o a b : PtI) : Int :=
  (a.1 - o.1) * (b.2 - o.2) - (a.2 - o.2) * (b.1 - o.1)

/-- Whether `p` lies on the closed segment from `a` to `b`. -/
def onSegment (a b p : PtI) : Bool :=
  cross2 a b p == 0 && min a.1 b.1 ≤ p.1 && p.1 ≤ max a.1 b.1 &&
    min a.2 b.2 ≤ p.2 && p.2 ≤ max a.2 b.2

/-- The edge list of a polygon: consecutive vertex pairs, wrapping around. -/
def polyEdges (poly : Polygon) : List (PtI × PtI) :=
  poly.zip (poly.rotate 1)

/-- Whether the horizontal ray from `p` crosses edge `e` (integer-exact
even-odd crossing test). -/
def edgeCrosses (p : PtI) (e : PtI × PtI) : Bool :=
  let a := e.1
  let b := e.2
  if a.2 ≤ p.2 && p.2 < b.2 then cross2 a b p > 0
  else if b.2 ≤ p.2 && p.2 < a.2 then cross2 a b p < 0
  else false

/-- Boundary-inclusive point-in-polygon containment. Models the external
OpenCV call `cv2.pointPolygonTest(np.array(polygon), (cx, cy), False) >= 0`
used by `LaneCounter.assign_lane` (OpenCV is an external dependency, not part
of this repository's sources; its documented contract — positive inside,
zero on the boundary, negative outside, so `>= 0` means inside-or-boundary —
is modelled by an even-odd crossing rule plus explicit boundary acceptance). -/
def pointInPoly (poly : Polygon) (p : PtI) : Bool :=
  (polyEdges poly).any (fun e => onSegment e.1 e.2 p) ||
    ((polyEdges poly).countP (edgeCrosses p)) % 2 == 1

/-- Python `int(q)`: truncation toward zero. -/
def truncQ (q : ℚ) : Int :=
  if 0 ≤ q then ⌊q⌋ else ⌈q⌉

/-- A bounding box `[x1, y1, x2, y2]`, coordinates as Python floats. -/
structure Box where
  x1 : ℚ
  y1 : ℚ
  x2 : ℚ
  y2 : ℚ
deriving DecidableEq, Repr

/-- Centroid of a bounding box as computed by `LaneCounter.assign_lane`:
`cx = int((x1 + x2) / 2)`, `cy = int((y1 + y2) / 2)`. -/
def centroid (b : Box) : PtI :=
  (truncQ ((b.x1 + b.x2) / 2), truncQ ((b.y1 + b.y2) / 2))

/-- First-occurrence lookup in an association list (Python `d[k]` read:
`none` models a `KeyError`). -/
def dictGet {α : Type} : List (Nat × α) → Nat → Option α
  | [], _ => none
  | (k, v) :: rest, k' => if k' = k then some v else dictGet rest k'

/-- In-place value update of the first occurrence of a key (Python
`d[k] = v` on an existing key; leaves the list unchanged if absent). -/
def dictSet {α : Type} : List (Nat × α) → Nat → α → List (Nat × α)
  | [], _, _ => []
  | (k, v) :: rest, k', v' =>
    if k' = k then (k, v') :: rest else (k, v) :: dictSet rest k' v'

/-- State of `LaneCounter` (`src/lane_counter.py`): the lanes dictionary
(insertion-ordered), the per-lane counts dict and the per-lane sets of
already-counted track identifiers. -/
structure LaneCounter where
  lanes : List (Nat × Polygon)
  counts : List (Nat × Nat)
  tracked_ids : List (Nat × Finset Int)
deriving DecidableEq

/-- Constructor `LaneCounter.__init__`: `counts = {lane_id: 0 for lane_id in lanes}` and
`tracked_ids = {lane_id: set() for lane_id in lanes}`. -/
def LaneCounter.init (lanes : List (Nat × Polygon)) : LaneCounter :=
  { lanes := lanes
    counts := lanes.map (fun p => (p.1, 0))
    tracked_ids := lanes.map (fun p => (p.1, (∅ : Finset Int))) }

/-- The lane-search loop of `assign_lane`: return the first lane (in dict
iteration order) whose polygon contains the point. -/
def findLane : List (Nat × Polygon) → PtI → Option Nat
  | [], _ => none
  | (lid, poly) :: rest, p =>
    if pointInPoly poly p then some lid else findLane rest p

/-- Method `LaneCounter.assign_lane`: centroid of the box, then first containing
lane, else `None`. -/
def assign_lane (lc : LaneCounter) (bbox : Box) : Option Nat :=
  findLane lc.lanes (centroid bbox)

/-- One element of the tracker output consumed by `update_counts` and
`process_frame`: the dict
`{"track_id": ..., "bbox": ..., "confidence": ..., "class_id": ...,
"class_name": ...}` built by `VehicleTracker.update` (the reconciled fields
are `None` when no detection matched). -/
structure TObj where
  track_id : Int
  bbox : Box
  confidence : Option ℚ
  class_id : Option Int
  class_name : Option String
deriving DecidableEq

/-- The per-object body of `LaneCounter.update_counts`: assign a lane; if
some lane and the track identifier is not yet in that lane's set, add it and
increment that lane's count. `none` models a `KeyError` on the dict reads. -/
def updateStep (lc : LaneCounter) (o : TObj) : Option LaneCounter :=
  match assign_lane lc o.bbox with
  | none => some lc
  | some lane =>
    match dictGet lc.tracked_ids lane with
    | none => none
    | some s =>
      if o.track_id ∈ s then some lc
      else
        match dictGet lc.counts lane with
        | none => none
        | some c =>
          some { lc with
                  tracked_ids := dictSet lc.tracked_ids lane (insert o.track_id s)
                  counts := dictSet lc.counts lane (c + 1) }

/-- Method `LaneCounter.update_counts`: fold the per-object step over the tracked
objects in list order (the Python method then returns `self.counts`, i.e.
the `counts` field of the resulting state). -/
def update_counts : LaneCounter → List TObj → Option LaneCounter
  | lc, [] => some lc
  | lc, o :: rest =>
    match updateStep lc o with
    | none => none
    | some lc' => update_counts lc' rest

/-- A detection dict from `detector.py`, as consumed by
`VehicleTracker.update`. -/
structure Det where
  bbox : Box
  confidence : ℚ
  class_id : Int
  class_name : String
deriving DecidableEq

/-- One row `[x1, y1, x2, y2, track_id]` of the external SORT tracker's
output (`self.tracker.update(dets)`), treated as an opaque input. -/
structure Track where
  bbox : Box
  tid : ℚ
deriving DecidableEq

/-- Inclusive pixel-edge box area, as in `_compute_iou`:
`(x2 - x1 + 1) * (y2 - y1 + 1)`. -/
def areaQ (b : Box) : ℚ :=
  (b.x2 - b.x1 + 1) * (b.y2 - b.y1 + 1)

/-- Intersection area of `_compute_iou`:
`max(0, xB - xA + 1) * max(0, yB - yA + 1)` with `xA = max(x1s)`,
`xB = min(x2s)` (and analogously in y). -/
def interQ (a b : Box) : ℚ :=
  max 0 (min a.x2 b.x2 - max a.x1 b.x1 + 1) *
    max 0 (min a.y2 b.y2 - max a.y1 b.y1 + 1)

/-- Method `VehicleTracker._compute_iou`: returns `0.0` (without dividing) when the
intersection area is zero, else intersection over union. -/
def iouQ (a b : Box) : ℚ :=
  if interQ a b = 0 then 0
  else interQ a b / (areaQ a + areaQ b - interQ a b)

/-- The matching loop of `VehicleTracker.update`: first detection (in list
order) whose IoU with the tracked box strictly exceeds `0.5`. -/
def findMatch : List Det → Box → Option Det
  | [], _ => none
  | d :: rest, box =>
    if iouQ d.bbox box > 1 / 2 then some d else findMatch rest box

/-- The per-track body of `VehicleTracker.update`: build the output dict,
taking `confidence` / `class_id` / `class_name` from the first matching
detection, or `None` for all three when no detection clears the threshold;
`track_id = int(track_id)`. -/
def reconcileOne (dets : List Det) (t : Track) : TObj :=
  match findMatch dets t.bbox with
  | some d =>
    { track_id := truncQ t.tid, bbox := t.bbox
      confidence := some d.confidence
      class_id := some d.class_id
      class_name := some d.class_name }
  | none =>
    { track_id := truncQ t.tid, bbox := t.bbox
      confidence := none, class_id := none, class_name := none }

/-- The reconciliation part of `VehicleTracker.update`: one output object per
tracker row, in order. -/
def vehicleUpdate (dets : List Det) (tracks : List Track) : List TObj :=
  tracks.map (reconcileOne dets)

/-- Zero-padded two-digit rendering of a number below 100, as Python's
`timedelta` string uses for minutes and seconds. -/
def pad2 (n : Nat) : String :=
  if n < 10 then "0" ++ toString n else toString n

/-- The `hours:minutes:seconds` rendering of a whole number of seconds
(hours unpadded, minutes and seconds two-digit). -/
def hmsStr (n : Nat) : String :=
  toString (n / 3600) ++ ":" ++ pad2 (n % 3600 / 60) ++ ":" ++ pad2 (n % 60)

/-- Python `str(timedelta(seconds = n))` for a nonnegative whole `n`:
`H:MM:SS`, prefixed with `"D day(s), "` when `n` reaches a full day. Used by
`CSVLogger.log` (`time_str = str(timedelta(seconds=int(timestamp)))`). -/
def pythonTimedeltaStr (n : Nat) : String :=
  let d := n / 86400
  let r := n % 86400
  let base := toString (r / 3600) ++ ":" ++ pad2 (r % 3600 / 60) ++ ":" ++ pad2 (r % 60)
  if d = 0 then base
  else if d = 1 then "1 day, " ++ base
  else toString d ++ " days, " ++ base

/-- The header row written by `CSVLogger.__init__` before any record. -/
def csvHeader : List String :=
  ["VehicleID", "Lane", "Frame", "Timestamp"]

/-- Python `f"{q:.2f}"` fixed two-decimal rendering for the nonnegative
confidences at hand (rounding to hundredths; tie behavior of binary floats
is immaterial to the values used here). -/
def fmt2 (q : ℚ) : String :=
  let n : Int := ⌊q * 100 + 1 / 2⌋
  toString (n / 100) ++ "." ++ pad2 (n % 100).toNat

/-- An object as read by `VideoProcessor.process_frame` through `dict.get`:
`none` in the outer option models an absent key, `some none` a key present
with value `None` (which is what the tracker output always carries for
unmatched tracks). -/
structure PFObj where
  track_id : Int
  bbox : Box
  class_name : Option (Option String)
  confidence : Option (Option ℚ)
deriving DecidableEq

/-- Python f-string rendering of an optional string: `None` renders as the
four-character text `"None"`. -/
def pyStrOptStr : Option String → String
  | none => "None"
  | some s => s

/-- The class text `obj.get("class_name", "vehicle")` as rendered into the label: the
placeholder fires only when the key is absent; a present `None` value is
rendered as `"None"`. -/
def classDisplay (o : PFObj) : String :=
  match o.class_name with
  | none => "vehicle"
  | some v => pyStrOptStr v

/-- The confidence value `float(obj.get("confidence") or 0.0)`: absent key, `None`, and `0.0` all
yield `0.0`; any other value passes through. -/
def confValue (o : PFObj) : ℚ :=
  match o.confidence with
  | none => 0
  | some none => 0
  | some (some q) => q

/-- The label drawn by `process_frame`:
`f"ID {track_id} {class_name} {conf:.2f}"`. -/
def labelOf (o : PFObj) : String :=
  "ID " ++ toString o.track_id ++ " " ++ classDisplay o ++ " " ++
    fmt2 (confValue o)

/-- View of a tracker-output dict as a `process_frame` input: every key is
present (possibly holding `None`). -/
def TObj.toPF (o : TObj) : PFObj :=
  { track_id := o.track_id, bbox := o.bbox
    class_name := some o.class_name, confidence := some o.confidence }

/-- What happens on a given frame of the streaming run, at the per-frame
granularity at which the loop observes it: a normally processed frame, a
frame on which the user pressed the quit key in the preview, a frame at
whose start a `KeyboardInterrupt` is delivered, or a frame whose body raises
an unexpected exception. The input list ending models the natural end of
the stream (`cap.read()` returning false). -/
inductive FrameSig
  | normal
  | quit
  | interrupt
  | exc
deriving DecidableEq

/-- One CSV record as passed to `CSVLogger.log` and formatted there. -/
structure LogRow where
  vid : Int
  lane : Nat
  frame : Nat
  time : String
deriving DecidableEq

/-- Terminal condition of the frame loop in `VideoProcessor.run`. -/
inductive Outcome
  | completed
  | userStopped
  | interrupted
  | raised
deriving DecidableEq

/-- The seconds count `int(frame_idx / self.fps)` as a count of whole seconds (the pipeline's
frame rate is positive, making the quotient nonnegative). -/
def pySeconds (idx : Nat) (fps : ℚ) : Nat :=
  (truncQ ((idx : ℚ) / fps)).toNat

/-- Step 5 of the loop body in `VideoProcessor.run`: one CSV record per
tracked object whose (recomputed) lane membership is non-`None`, carrying
the track identifier, the lane, the 1-based frame index, and the formatted
truncated timestamp. -/
def frameRows (lanes : List (Nat × Polygon)) (fps : ℚ) (idx : Nat)
    (objs : List TObj) : List LogRow :=
  objs.filterMap fun o =>
    (findLane lanes (centroid o.bbox)).map fun lane =>
      { vid := o.track_id, lane := lane, frame := idx
        time := pythonTimedeltaStr (pySeconds idx fps) }

/-- Result of the frame loop: final lane-counter state, number of frames
written to the output video, CSV records emitted, and terminal condition. -/
structure LoopRes where
  lc : LaneCounter
  written : Nat
  rows : List LogRow
  outcome : Outcome
deriving DecidableEq

/-- The `while True` loop of `VideoProcessor.run`, one iteration per input
frame: increment the frame index, run detection/tracking (their combined
output for the frame is the oracle `objs` in the input), update lane counts
while annotating (a `KeyError` there is an unexpected exception raised
before the frame is written), write the frame, honor a quit keypress
(which skips that frame's CSV records), emit the frame's CSV records, and
continue; a `KeyboardInterrupt` is observed at the frame boundary. -/
def runLoop (fps : ℚ) :
    LaneCounter → Nat → Nat → List LogRow → List (FrameSig × List TObj) → LoopRes
  | lc, _, w, rows, [] => ⟨lc, w, rows, .completed⟩
  | lc, _, w, rows, (.interrupt, _) :: _ => ⟨lc, w, rows, .interrupted⟩
  | lc, _, w, rows, (.exc, _) :: _ => ⟨lc, w, rows, .raised⟩
  | lc, _, w, rows, (.quit, objs) :: _ =>
    match update_counts lc objs with
    | none => ⟨lc, w, rows, .raised⟩
    | some lc' => ⟨lc', w + 1, rows, .userStopped⟩
  | lc, idx, w, rows, (.normal, objs) :: rest =>
    match update_counts lc objs with
    | none => ⟨lc, w, rows, .raised⟩
    | some lc' =>
      runLoop fps lc' (idx + 1) (w + 1)
        (rows ++ frameRows lc'.lanes fps (idx + 1) objs) rest

/-- Observable result of a whole run of `main` around `VideoProcessor.run`:
how many times each resource was released, whether an exception propagated
out of `run`, the CSV file contents, frames written, and final counts. -/
structure PipeRes where
  capReleased : Nat
  outReleased : Nat
  pbarClosed : Nat
  csvClosed : Nat
  excPropagated : Bool
  csvFile : List (List String)
  framesWritten : Nat
  finalCounts : List (Nat × Nat)
deriving DecidableEq

/-- How `csv.writer` renders one `CSVLogger.log` record. -/
def rowCells (r : LogRow) : List String :=
  [toString r.vid, toString r.lane, toString r.frame, r.time]

/-- The pipeline of `main`: build the `LaneCounter`, open the CSV log
(header first), run `VideoProcessor.run` (whose `finally` block releases
the input stream, output writer and progress bar, and destroys the preview
windows, on every exit path; a caught `KeyboardInterrupt` returns
normally), then — only when `run` returned without propagating an
exception — close the CSV logger in `main` (which has no `try`/`finally`
of its own). -/
def pipeline (lanes : List (Nat × Polygon)) (fps : ℚ)
    (frames : List (FrameSig × List TObj)) : PipeRes :=
  let res := runLoop fps (LaneCounter.init lanes) 0 0 [] frames
  let exc : Bool := res.outcome = Outcome.raised
  { capReleased := 1
    outReleased := 1
    pbarClosed := 1
    csvClosed := if exc then 0 else 1
    excPropagated := exc
    csvFile := csvHeader :: res.rows.map rowCells
    framesWritten := res.written
    finalCounts := res.lc.counts }

/-- The CSV rows a clean (uninterrupted) run must emit from frame index
`idx + 1` on, given the per-frame tracker outputs. -/
def specRows (lanes : List (Nat × Polygon)) (fps : ℚ) :
    Nat → List (List TObj) → List LogRow
  | _, [] => []
  | idx, objs :: rest =>
    frameRows lanes fps (idx + 1) objs ++ specRows lanes fps (idx + 1) rest

/-- Keys of the counts and tracked-ids dicts coincide with the configured
lane identifiers (established by `LaneCounter.__init__`, preserved by
`update_counts`). -/
def KeysWF (lc : LaneCounter) : Prop :=
  lc.counts.map Prod.fst = lc.lanes.map Prod.fst ∧
    lc.tracked_ids.map Prod.fst = lc.lanes.map Prod.fst

/-- Each lane's stored count equals the cardinality of its counted-ids set. -/
def CountInv (lc : LaneCounter) : Prop :=
  ∀ l s c, dictGet lc.tracked_ids l = some s → dictGet lc.counts l = some c →
    c = s.card

/-- Every lane the object's box resolves to already holds the object's track
identifier (so the update step is a no-op on such an object). -/
def Settled (lc : LaneCounter) (o : TObj) : Prop :=
  ∀ L, assign_lane lc o.bbox = some L →
    ∃ s, dictGet lc.tracked_ids L = some s ∧ o.track_id ∈ s

/-- Two disjoint square lanes, ids 1 and 2 in ascending order. -/
def laneSqA : Polygon := [(0, 0), (10, 0), (10, 10), (0, 10)]

/-- Second square lane polygon, disjoint from `laneSqA`. -/
def laneSqB : Polygon := [(20, 0), (30, 0), (30, 10), (20, 10)]

/-- A polygon overlapping `laneSqA` on the strip `5 ≤ x ≤ 10`. -/
def laneOv : Polygon := [(5, 0), (15, 0), (15, 10), (5, 10)]

/-- Two disjoint configured lanes. -/
def lanesEx : List (Nat × Polygon) := [(1, laneSqA), (2, laneSqB)]

/-- Two overlapping configured lanes in ascending-id order. -/
def lanesOv : List (Nat × Polygon) := [(1, laneSqA), (2, laneOv)]

/-- Box with centroid `(3, 3)`, inside lane 1 of `lanesEx`. -/
def boxA : Box := ⟨2, 2, 4, 4⟩

/-- Box with centroid `(23, 3)`, inside lane 2 of `lanesEx`. -/
def boxB : Box := ⟨22, 2, 24, 4⟩

/-- Track 1 seen inside lane 1. -/
def objA : TObj := ⟨1, boxA, none, none, none⟩

/-- The same track 1 later seen inside lane 2. -/
def objB : TObj := ⟨1, boxB, none, none, none⟩

/-- Expected `LaneCounter` state after counting `objA` from the initial
state on `lanesEx`. -/
def lcA : LaneCounter :=
  { lanes := lanesEx
    counts := [(1, 1), (2, 0)]
    tracked_ids := [(1, {1}), (2, (∅ : Finset Int))] }

/-- Expected state after additionally counting `objB`: track 1 is now in
both lanes' sets. -/
def lcB : LaneCounter :=
  { lanes := lanesEx
    counts := [(1, 1), (2, 1)]
    tracked_ids := [(1, {1}), (2, {1})] }

/-- The spec's reconciliation-scenario detection: box `[0,0,10,10]`,
confidence `0.9`, class car. -/
def detCar : Det := ⟨⟨0, 0, 10, 10⟩, 9 / 10, 2, "car"⟩

/-- A detection far away from `trackBox7` (IoU `0`). -/
def detFar : Det := ⟨⟨100, 100, 110, 110⟩, 8 / 10, 7, "truck"⟩

/-- The spec's reconciliation-scenario tracked box `[1,1,11,11]` with
identifier `7`. -/
def trackBox7 : Track := ⟨⟨1, 1, 11, 11⟩, 7⟩

/-- A tracker-emitted object for an unmatched track as `process_frame` sees
it: the `class_name` and `confidence` keys are present and hold `None`. -/
def objNoConf : PFObj := ⟨7, ⟨1, 1, 11, 11⟩, some none, some none⟩

/-! Helper lemmas about the dict model. -/

theorem dictSet_keys {α : Type} (l : List (Nat × α)) (k : Nat) (v : α) :
    (dictSet l k v).map Prod.fst = l.map Prod.fst := by
  induction l with
  | nil => rfl
  | cons hd tl ih =>
    obtain ⟨k0, v0⟩ := hd
    by_cases h : k = k0 <;> simp [dictSet, h, ih]

theorem dictGet_dictSet_self {α : Type} (l : List (Nat × α)) (k : Nat)
    (v v0 : α) (h : dictGet l k = some v0) :
    dictGet (dictSet l k v) k = some v := by
  induction l with
  | nil => simp [dictGet] at h
  | cons hd tl ih =>
    obtain ⟨k0, w⟩ := hd
    by_cases hk : k = k0
    · simp [dictGet, dictSet, hk]
    · simp only [dictGet, dictSet, if_neg hk] at h ⊢
      exact ih h

theorem dictGet_dictSet_ne {α : Type} (l : List (Nat × α)) (k k' : Nat)
    (v : α) (h : k' ≠ k) :
    dictGet (dictSet l k v) k' = dictGet l k' := by
  induction l with
  | nil => rfl
  | cons hd tl ih =>
    obtain ⟨k0, w⟩ := hd
    by_cases hk : k = k0
    · subst hk
      simp [dictGet, dictSet, h]
    · by_cases hk' : k' = k0 <;> simp [dictGet, dictSet, hk, hk', ih]

theorem dictGet_mem_keys {α : Type} (l : List (Nat × α)) (k : Nat)
    (h : k ∈ l.map Prod.fst) : ∃ v, dictGet l k = some v := by
  induction l with
  | nil => simp at h
  | cons hd tl ih =>
    obtain ⟨k0, w⟩ := hd
    by_cases hk : k = k0
    · exact ⟨w, by simp [dictGet, hk]⟩
    · simp only [List.map_cons, List.mem_cons] at h
      rcases h with h | h
    
      · exact absurd h hk
      · obtain ⟨v, hv⟩ := ih h
        exact ⟨v, by simp [dictGet, hk, hv]⟩

theorem dictGet_map_const {α β : Type} (ls : List (Nat × β)) (c : α) (k : Nat)
    (v : α) (h : dictGet (ls.map fun p => (p.1, c)) k = some v) : v = c := by
  induction ls with
  | nil => simp [dictGet] at h
  | cons hd tl ih =>
    by_cases hk : k = hd.1
    · simp [dictGet, hk] at h
      exact h.symm
    · simp only [List.map_cons, dictGet, if_neg hk] at h
      exact ih h

/-! Helper lemmas about lane search. -/

theorem findLane_mem (lanes : List (Nat × Polygon)) (p : PtI) (L : Nat)
    (h : findLane lanes p = some L) : L ∈ lanes.map Prod.fst := by
  induction lanes with
  | nil => simp [findLane] at h
  | cons hd tl ih =>
    obtain ⟨lid, poly⟩ := hd
    by_cases hc : pointInPoly poly p
    · simp [findLane, hc] at h
      simp [h]
    · simp only [findLane, if_neg hc] at h
      simp [ih h]

theorem findLane_split (lanes : List (Nat × Polygon)) (p : PtI) (L : Nat)
    (h : findLane lanes p = some L) :
    ∃ pre poly post, lanes = pre ++ (L, poly) :: post ∧
      pointInPoly poly p = true ∧ ∀ q ∈ pre, pointInPoly q.2 p = false := by
  induction lanes with
  | nil => simp [findLane] at h
  | cons hd tl ih =>
    obtain ⟨lid, poly⟩ := hd
    by_cases hc : pointInPoly poly p
    · simp [findLane, hc] at h
      subst h
      exact ⟨[], poly, tl, rfl, hc, by simp⟩
    · simp only [findLane, if_neg hc] at h
      obtain ⟨pre, poly', post, he, hin, hall⟩ := ih h
      refine ⟨(lid, poly) :: pre, poly', post, by simp [he], hin, ?_⟩
      intro q hq
      rcases List.mem_cons.mp hq with hq | hq
      · subst hq
        exact Bool.eq_false_iff.mpr hc
      · exact hall q hq

theorem findLane_none_iff (lanes : List (Nat × Polygon)) (p : PtI) :
    findLane lanes p = none ↔ ∀ q ∈ lanes, pointInPoly q.2 p = false := by
  induction lanes with
  | nil => simp [findLane]
  | cons hd tl ih =>
    obtain ⟨lid, poly⟩ := hd
    simp only [findLane]
    by_cases hc : pointInPoly poly p
    · rw [if_pos hc]
      constructor
      · intro h
        exact absurd h (by simp)
      · intro h
        exact absurd (h (lid, poly) (List.mem_cons_self _ _)) (by simp [hc])
    · rw [if_neg hc]
      constructor
      · intro h q hq
        rcases List.mem_cons.mp hq with rfl | hq
        · exact Bool.eq_false_iff.mpr hc
        · exact ih.mp h q hq
      · intro h
        exact ih.mpr fun q hq => h q (List.mem_cons_of_mem _ hq)

theorem assign_lane_congr (lc lc' : LaneCounter) (b : Box)
    (h : lc'.lanes = lc.lanes) : assign_lane lc' b = assign_lane lc b := by
  simp [assign_lane, h]

/-! Helper lemmas about the update step. -/

theorem updateStep_none_assign (lc : LaneCounter) (o : TObj)
    (ha : assign_lane lc o.bbox = none) : updateStep lc o = some lc := by
  unfold updateStep
  rw [ha]

theorem updateStep_noop_of_mem (lc : LaneCounter) (o : TObj) (lane : Nat)
    (s : Finset Int) (ha : assign_lane lc o.bbox = some lane)
    (hs : dictGet lc.tracked_ids lane = some s) (hm : o.track_id ∈ s) :
    updateStep lc o = some lc := by
  simp [updateStep, ha, hs, hm]

theorem updateStep_cases (lc : LaneCounter) (o : TObj) (lc' : LaneCounter)
    (h : updateStep lc o = some lc') :
    (assign_lane lc o.bbox = none ∧ lc' = lc) ∨
    (∃ lane s, assign_lane lc o.bbox = some lane ∧
      dictGet lc.tracked_ids lane = some s ∧ o.track_id ∈ s ∧ lc' = lc) ∨
    (∃ lane s c, assign_lane lc o.bbox = some lane ∧
      dictGet lc.tracked_ids lane = some s ∧ o.track_id ∉ s ∧
      dictGet lc.counts lane = some c ∧
      lc' = { lc with
               tracked_ids := dictSet lc.tracked_ids lane (insert o.track_id s)
               counts := dictSet lc.counts lane (c + 1) }) := by
  unfold updateStep at h
  split at h
  next ha =>
    exact Or.inl ⟨ha, (Option.some_inj.mp h).symm⟩
  next lane ha =>
    split at h
    next hs => exact absurd h (by simp)
    next s hs =>
      split at h
      next hm =>
        exact Or.inr (Or.inl ⟨lane, s, ha, hs, hm, (Option.some_inj.mp h).symm⟩)
      next hm =>
        split at h
        next hc => exact absurd h (by simp)
        next c hc =>
          exact Or.inr (Or.inr ⟨lane, s, c, ha, hs, hm, hc,
            (Option.some_inj.mp h).symm⟩)

theorem updateStep_lanes (lc : LaneCounter) (o : TObj) (lc' : LaneCounter)
    (h : updateStep lc o = some lc') : lc'.lanes = lc.lanes := by
  rcases updateStep_cases lc o lc' h with ⟨_, rfl⟩ | ⟨_, _, _, _, _, rfl⟩ |
    ⟨_, _, _, _, _, _, _, rfl⟩ <;> rfl

theorem updateStep_tracked_mono (lc : LaneCounter) (o : TObj)
    (lc' : LaneCounter) (h : updateStep lc o = some lc') (l : Nat)
    (s : Finset Int) (hl : dictGet lc.tracked_ids l = some s) :
    ∃ s', dictGet lc'.tracked_ids l = some s' ∧ s ⊆ s' := by
  rcases updateStep_cases lc o lc' h with ⟨_, rfl⟩ | ⟨_, _, _, _, _, rfl⟩ |
    ⟨lane, t, c, ha, ht, hm, hc, rfl⟩
  · exact ⟨s, hl, subset_rfl⟩
  · exact ⟨s, hl, subset_rfl⟩
  · by_cases hlane : l = lane
    · subst hlane
      rw [hl] at ht
      obtain rfl : s = t := Option.some_inj.mp ht
      exact ⟨insert o.track_id s,
        dictGet_dictSet_self _ _ _ _ hl, Finset.subset_insert _ _⟩
    · exact ⟨s, by
        show dictGet (dictSet lc.tracked_ids lane _) l = some s
        rw [dictGet_dictSet_ne _ _ _ _ hlane]
        exact hl, subset_rfl⟩

theorem updateStep_counts_mono (lc : LaneCounter) (o : TObj)
    (lc' : LaneCounter) (h : updateStep lc o = some lc') (l : Nat) (c : Nat)
    (hl : dictGet lc.counts l = some c) :
    ∃ c', dictGet lc'.counts l = some c' ∧ c ≤ c' := by
  rcases updateStep_cases lc o lc' h with ⟨_, rfl⟩ | ⟨_, _, _, _, _, rfl⟩ |
    ⟨lane, t, c0, ha, ht, hm, hc0, rfl⟩
  · exact ⟨c, hl, le_rfl⟩
  · exact ⟨c, hl, le_rfl⟩
  · by_cases hlane : l = lane
    · subst hlane
      rw [hl] at hc0
      obtain rfl : c = c0 := Option.some_inj.mp hc0
      exact ⟨c + 1, dictGet_dictSet_self _ _ _ _ hl, Nat.le_succ c⟩
    · exact ⟨c, by
        show dictGet (dictSet lc.counts lane _) l = some c
        rw [dictGet_dictSet_ne _ _ _ _ hlane]
        exact hl, le_rfl⟩

theorem updateStep_countInv (lc : LaneCounter) (o : TObj) (lc' : LaneCounter)
    (h : updateStep lc o = some lc') (inv : CountInv lc) : CountInv lc' := by
  rcases updateStep_cases lc o lc' h with ⟨_, rfl⟩ | ⟨_, _, _, _, _, rfl⟩ |
    ⟨lane, t, c0, ha, ht, hm, hc0, rfl⟩
  · exact inv
  · exact inv
  · intro l s c hts hcs
    by_cases hlane : l = lane
    · subst hlane
      rw [show dictGet (dictSet lc.tracked_ids l (insert o.track_id t)) l =
            some (insert o.track_id t) from
          dictGet_dictSet_self _ _ _ _ ht] at hts
      rw [show dictGet (dictSet lc.counts l (c0 + 1)) l = some (c0 + 1) from
          dictGet_dictSet_self _ _ _ _ hc0] at hcs
      obtain rfl : s = insert o.track_id t := (Option.some_inj.mp hts).symm
      obtain rfl : c = c0 + 1 := (Option.some_inj.mp hcs).symm
      rw [Finset.card_insert_of_not_mem hm, inv l t c0 ht hc0]
    · rw [show dictGet (dictSet lc.tracked_ids lane (insert o.track_id t)) l =
            dictGet lc.tracked_ids l from dictGet_dictSet_ne _ _ _ _ hlane] at hts
      rw [show dictGet (dictSet lc.counts lane (c0 + 1)) l =
            dictGet lc.counts l from dictGet_dictSet_ne _ _ _ _ hlane] at hcs
      exact inv l s c hts hcs

theorem updateStep_keysWF (lc : LaneCounter) (o : TObj) (lc' : LaneCounter)
    (h : updateStep lc o = some lc') (wf : KeysWF lc) : KeysWF lc' := by
  rcases updateStep_cases lc o lc' h with ⟨_, rfl⟩ | ⟨_, _, _, _, _, rfl⟩ |
    ⟨lane, t, c0, ha, ht, hm, hc0, rfl⟩
  · exact wf
  · exact wf
  · exact ⟨by simpa [dictSet_keys] using wf.1, by simpa [dictSet_keys] using wf.2⟩

theorem updateStep_total (lc : LaneCounter) (o : TObj) (wf : KeysWF lc) :
    ∃ lc', updateStep lc o = some lc' := by
  cases ha : assign_lane lc o.bbox with
  | none => exact ⟨lc, updateStep_none_assign lc o ha⟩
  | some lane =>
    have hkey : lane ∈ lc.lanes.map Prod.fst := findLane_mem _ _ _ ha
    obtain ⟨s, hs⟩ := dictGet_mem_keys lc.tracked_ids lane (wf.2 ▸ hkey)
    by_cases hm : o.track_id ∈ s
    · exact ⟨lc, updateStep_noop_of_mem lc o lane s ha hs hm⟩
    · obtain ⟨c, hc⟩ := dictGet_mem_keys lc.counts lane (wf.1 ▸ hkey)
      refine ⟨{ lc with
                 tracked_ids := dictSet lc.tracked_ids lane (insert o.track_id s)
                 counts := dictSet lc.counts lane (c + 1) }, ?_⟩
      simp [updateStep, ha, hs, hm, hc]

/-! Helper lemmas about the Settled predicate. -/

theorem settled_noop (lc : LaneCounter) (o : TObj) (h : Settled lc o) :
    updateStep lc o = some lc := by
  cases ha : assign_lane lc o.bbox with
  | none => exact updateStep_none_assign lc o ha
  | some L =>
    obtain ⟨s, hs, hm⟩ := h L ha
    exact updateStep_noop_of_mem lc o L s ha hs hm

theorem updateStep_settled_self (lc : LaneCounter) (o : TObj)
    (lc' : LaneCounter) (h : updateStep lc o = some lc') : Settled lc' o := by
  rcases updateStep_cases lc o lc' h with ⟨ha, rfl⟩ |
    ⟨lane, s, ha, hs, hm, rfl⟩ | ⟨lane, s, c0, ha, hs, hm, hc0, rfl⟩
  · intro L hL
    exact absurd (ha ▸ hL) (by simp)
  · intro L hL
    obtain rfl : lane = L := Option.some_inj.mp (ha ▸ hL)
    exact ⟨s, hs, hm⟩
  · intro L hL
    have hL' : assign_lane lc o.bbox = some L := hL
    obtain rfl : lane = L := Option.some_inj.mp (ha ▸ hL')
    exact ⟨insert o.track_id s, dictGet_dictSet_self _ _ _ _ hs,
      Finset.mem_insert_self _ _⟩

theorem updateStep_settled_mono (lc : LaneCounter) (o' : TObj)
    (lc' : LaneCounter) (h : updateStep lc o' = some lc') (o : TObj)
    (hset : Settled lc o) : Settled lc' o := by
  intro L hL
  have hlanes := updateStep_lanes lc o' lc' h
  have hL' : assign_lane lc o.bbox = some L := by
    rw [← assign_lane_congr lc lc' o.bbox hlanes]
    exact hL
  obtain ⟨s, hs, hm⟩ := hset L hL'
  obtain ⟨s', hs', hsub⟩ := updateStep_tracked_mono lc o' lc' h L s hs
  exact ⟨s', hs', hsub hm⟩

/-! Lifting the per-step lemmas along the whole update loop. -/

theorem update_counts_lanes (objs : List TObj) :
    ∀ lc lc', update_counts lc objs = some lc' → lc'.lanes = lc.lanes := by
  induction objs with
  | nil =>
    intro lc lc' h
    simp only [update_counts] at h
    rw [Option.some_inj.mp h]
  | cons o rest ih =>
    intro lc lc' h
    simp only [update_counts] at h
    cases hstep : updateStep lc o with
    | none => rw [hstep] at h; exact absurd h (by simp)
    | some lc1 =>
      rw [hstep] at h
      exact (ih lc1 lc' h).trans (updateStep_lanes lc o lc1 hstep)

theorem update_counts_tracked_mono (objs : List TObj) :
    ∀ lc lc', update_counts lc objs = some lc' →
      ∀ l s, dictGet lc.tracked_ids l = some s →
        ∃ s', dictGet lc'.tracked_ids l = some s' ∧ s ⊆ s' := by
  induction objs with
  | nil =>
    intro lc lc' h l s hl
    simp only [update_counts] at h
    rw [← Option.some_inj.mp h]
    exact ⟨s, hl, subset_rfl⟩
  | cons o rest ih =>
    intro lc lc' h l s hl
    simp only [update_counts] at h
    cases hstep : updateStep lc o with
    | none => rw [hstep] at h; exact absurd h (by simp)
    | some lc1 =>
      rw [hstep] at h
      obtain ⟨s1, hs1, hsub1⟩ := updateStep_tracked_mono lc o lc1 hstep l s hl
      obtain ⟨s', hs', hsub'⟩ := ih lc1 lc' h l s1 hs1
      exact ⟨s', hs', hsub1.trans hsub'⟩

theorem update_counts_counts_mono (objs : List TObj) :
    ∀ lc lc', update_counts lc objs = some lc' →
      ∀ l c, dictGet lc.counts l = some c →
        ∃ c', dictGet lc'.counts l = some c' ∧ c ≤ c' := by
  induction objs with
  | nil =>
    intro lc lc' h l c hl
    simp only [update_counts] at h
    rw [← Option.some_inj.mp h]
    exact ⟨c, hl, le_rfl⟩
  | cons o rest ih =>
    intro lc lc' h l c hl
    simp only [update_counts] at h
    cases hstep : updateStep lc o with
    | none => rw [hstep] at h; exact absurd h (by simp)
    | some lc1 =>
      rw [hstep] at h
      obtain ⟨c1, hc1, hle1⟩ := updateStep_counts_mono lc o lc1 hstep l c hl
      obtain ⟨c', hc', hle'⟩ := ih lc1 lc' h l c1 hc1
      exact ⟨c', hc', hle1.trans hle'⟩

theorem update_counts_countInv (objs : List TObj) :
    ∀ lc lc', update_counts lc objs = some lc' → CountInv lc → CountInv lc' := by
  induction objs with
  | nil =>
    intro lc lc' h inv
    simp only [update_counts] at h
    rw [← Option.some_inj.mp h]
    exact inv
  | cons o rest ih =>
    intro lc lc' h inv
    simp only [update_counts] at h
    cases hstep : updateStep lc o with
    | none => rw [hstep] at h; exact absurd h (by simp)
    | some lc1 =>
      rw [hstep] at h
      exact ih lc1 lc' h (updateStep_countInv lc o lc1 hstep inv)

theorem update_counts_total (objs : List TObj) :
    ∀ lc, KeysWF lc →
      ∃ lc', update_counts lc objs = some lc' ∧ KeysWF lc' ∧
        lc'.lanes = lc.lanes := by
  induction objs with
  | nil =>
    intro lc wf
    exact ⟨lc, rfl, wf, rfl⟩
  | cons o rest ih =>
    intro lc wf
    obtain ⟨lc1, hstep⟩ := updateStep_total lc o wf
    have wf1 := updateStep_keysWF lc o lc1 hstep wf
    obtain ⟨lc', h', wf', hl'⟩ := ih lc1 wf1
    refine ⟨lc', ?_, wf', hl'.trans (updateStep_lanes lc o lc1 hstep)⟩
    simp only [update_counts, hstep]
    exact h'

theorem update_counts_settled_mono (objs : List TObj) :
    ∀ lc lc', update_counts lc objs = some lc' →
      ∀ o, Settled lc o → Settled lc' o := by
  induction objs with
  | nil =>
    intro lc lc' h o hset
    simp only [update_counts] at h
    rw [← Option.some_inj.mp h]
    exact hset
  | cons o' rest ih =>
    intro lc lc' h o hset
    simp only [update_counts] at h
    cases hstep : updateStep lc o' with
    | none => rw [hstep] at h; exact absurd h (by simp)
    | some lc1 =>
      rw [hstep] at h
      exact ih lc1 lc' h o (updateStep_settled_mono lc o' lc1 hstep o hset)

theorem update_counts_settled_all (objs : List TObj) :
    ∀ lc lc', update_counts lc objs = some lc' → ∀ o ∈ objs, Settled lc' o := by
  induction objs with
  | nil =>
    intro lc lc' _ o ho
    simp at ho
  | cons o' rest ih =>
    intro lc lc' h o ho
    simp only [update_counts] at h
    cases hstep : updateStep lc o' with
    | none => rw [hstep] at h; exact absurd h (by simp)
    | some lc1 =>
      rw [hstep] at h
      rcases List.mem_cons.mp ho with rfl | ho
      · exact update_counts_settled_mono rest lc1 lc' h o
          (updateStep_settled_self lc o lc1 hstep)
      · exact ih lc1 lc' h o ho

theorem update_counts_noop_of_settled (objs : List TObj) :
    ∀ lc, (∀ o ∈ objs, Settled lc o) → update_counts lc objs = some lc := by
  induction objs with
  | nil => intro lc _; rfl
  | cons o rest ih =>
    intro lc hall
    have hstep := settled_noop lc o (hall o (List.mem_cons_self _ _))
    simp only [update_counts, hstep]
    exact ih lc fun o' ho' => hall o' (List.mem_cons_of_mem _ ho')

/-! Helper lemmas about the streaming loop and CSV formatting. -/

theorem runLoop_normal (lanes : List (Nat × Polygon)) (fps : ℚ)
    (objss : List (List TObj)) :
    ∀ lc idx w rows, KeysWF lc → lc.lanes = lanes →
      ∃ lcF, runLoop fps lc idx w rows
          (objss.map fun objs => (FrameSig.normal, objs)) =
        ⟨lcF, w + objss.length, rows ++ specRows lanes fps idx objss,
          Outcome.completed⟩ := by
  induction objss with
  | nil =>
    intro lc idx w rows _ _
    exact ⟨lc, by simp [runLoop, specRows]⟩
  | cons objs rest ih =>
    intro lc idx w rows wf hlanes
    obtain ⟨lc', hupd, wf', hl'⟩ := update_counts_total objs lc wf
    obtain ⟨lcF, hF⟩ := ih lc' (idx + 1) (w + 1)
      (rows ++ frameRows lanes fps (idx + 1) objs) wf' (hl'.trans hlanes)
    refine ⟨lcF, ?_⟩
    simp only [List.map_cons, runLoop, hupd, hl', hlanes, hF, LoopRes.mk.injEq,
      List.length_cons, specRows, List.append_assoc, true_and, and_true]
    omega

theorem runLoop_normal_quit (lanes : List (Nat × Polygon)) (fps : ℚ)
    (objss : List (List TObj)) (objsQ : List TObj) :
    ∀ lc idx w rows, KeysWF lc → lc.lanes = lanes →
      ∃ lcF, runLoop fps lc idx w rows
          ((objss.map fun objs => (FrameSig.normal, objs)) ++
            [(FrameSig.quit, objsQ)]) =
        ⟨lcF, w + objss.length + 1, rows ++ specRows lanes fps idx objss,
          Outcome.userStopped⟩ := by
  induction objss with
  | nil =>
    intro lc idx w rows wf hlanes
    obtain ⟨lc', hupd, _, _⟩ := update_counts_total objsQ lc wf
    refine ⟨lc', ?_⟩
    simp only [List.map_nil, List.nil_append, runLoop, hupd, LoopRes.mk.injEq,
      specRows, List.append_nil, List.length_nil, true_and, and_true]
  | cons objs rest ih =>
    intro lc idx w rows wf hlanes
    obtain ⟨lc', hupd, wf', hl'⟩ := update_counts_total objs lc wf
    obtain ⟨lcF, hF⟩ := ih lc' (idx + 1) (w + 1)
      (rows ++ frameRows lanes fps (idx + 1) objs) wf' (hl'.trans hlanes)
    refine ⟨lcF, ?_⟩
    simp only [List.map_cons, List.cons_append, List.append_eq, runLoop, hupd,
      hl', hlanes, hF, LoopRes.mk.injEq, List.length_cons, specRows,
      List.append_assoc, true_and, and_true]
    omega

theorem frameRows_length (lanes : List (Nat × Polygon)) (fps : ℚ) (idx : Nat)
    (objs : List TObj) :
    (frameRows lanes fps idx objs).length =
      (objs.filter fun o => (findLane lanes (centroid o.bbox)).isSome).length := by
  induction objs with
  | nil => rfl
  | cons o rest ih =>
    simp only [frameRows, List.filterMap_cons, List.filter_cons] at *
    cases h : findLane lanes (centroid o.bbox) <;> simp [h, ih]

theorem pythonTimedeltaStr_hms (n : Nat) (h : n < 86400) :
    pythonTimedeltaStr n = hmsStr n := by
  unfold pythonTimedeltaStr hmsStr
  have hd : n / 86400 = 0 := Nat.div_eq_of_lt h
  have hr : n % 86400 = n := Nat.mod_eq_of_lt h
  simp [hd, hr]

theorem pySeconds_floor (idx : Nat) (fps : ℚ) (h : 0 < fps) :
    (pySeconds idx fps : Int) = ⌊(idx : ℚ) / fps⌋ := by
  unfold pySeconds truncQ
  have hq : 0 ≤ (idx : ℚ) / fps := div_nonneg (by positivity) h.le
  rw [if_pos hq]
  exact Int.toNat_of_nonneg (Int.floor_nonneg.mpr hq)

/-! Helper lemmas about detection matching. -/

theorem findMatch_none_iff (dets : List Det) (box : Box) :
    findMatch dets box = none ↔ ∀ d ∈ dets, iouQ d.bbox box ≤ 1 / 2 := by
  induction dets with
  | nil => simp [findMatch]
  | cons d rest ih =>
    simp only [findMatch]
    by_cases hd : iouQ d.bbox box > 1 / 2
    · rw [if_pos hd]
      constructor
      · intro h
        exact absurd h (by simp)
      · intro h
        exact absurd (h d (List.mem_cons_self _ _)) (not_le.mpr hd)
    · rw [if_neg hd]
      constructor
      · intro h d' hd'
        rcases List.mem_cons.mp hd' with rfl | hd'
        · exact not_lt.mp hd
        · exact ih.mp h d' hd'
      · intro h
        exact ih.mpr fun d' hd' => h d' (List.mem_cons_of_mem _ hd')

theorem findMatch_first (pre : List Det) (d : Det) (post : List Det)
    (box : Box) (hpre : ∀ d' ∈ pre, iouQ d'.bbox box ≤ 1 / 2)
    (hd : iouQ d.bbox box > 1 / 2) :
    findMatch (pre ++ d :: post) box = some d := by
  induction pre with
  | nil =>
    simp only [List.nil_append, findMatch]
    rw [if_pos hd]
  | cons d0 rest ih =>
    have h0 : ¬ iouQ d0.bbox box > 1 / 2 :=
      not_lt.mpr (hpre d0 (List.mem_cons_self _ _))
    simp only [List.cons_append, findMatch, if_neg h0]
    exact ih fun d' hd' => hpre d' (List.mem_cons_of_mem _ hd')

/-! Concrete evaluation helpers. Rational arithmetic (the centroid's
midpoint division) is settled by norm_num; the remaining state is free of
rationals and is evaluated by decide. -/

theorem centroidA : centroid boxA = (3, 3) := by
  norm_num [centroid, boxA, truncQ]

theorem centroidB : centroid boxB = (23, 3) := by
  norm_num [centroid, boxB, truncQ]

theorem assignA : assign_lane (LaneCounter.init lanesEx) boxA = some 1 := by
  show findLane lanesEx (centroid boxA) = some 1
  rw [centroidA]
  decide

theorem assignA2 : assign_lane lcA boxA = some 1 := by
  show findLane lanesEx (centroid boxA) = some 1
  rw [centroidA]
  decide

theorem assignB2 : assign_lane lcA boxB = some 2 := by
  show findLane lanesEx (centroid boxB) = some 2
  rw [centroidB]
  decide

theorem updateA : update_counts (LaneCounter.init lanesEx) [objA] = some lcA := by
  have ha : assign_lane (LaneCounter.init lanesEx) objA.bbox = some 1 := assignA
  simp only [update_counts, updateStep, ha]
  decide

theorem updateB : update_counts lcA [objB] = some lcB := by
  have hb : assign_lane lcA objB.bbox = some 2 := assignB2
  simp only [update_counts, updateStep, hb]
  decide

/-! The claims. -/

/-- C1 counterexample: the claim says a track identifier counted in one
lane's set is never added to a different lane's set. The code deduplicates
only within a single lane: from `LaneCounter.init lanesEx`, track 1 is
counted in lane 1 by the first `update_counts` call, and the second call —
whose centroid for track 1 lies in lane 2's polygon — adds the same
identifier to lane 2's set as well, so both sets contain track 1. -/
theorem c1_counterexample :
    ((update_counts (LaneCounter.init lanesEx) [objA]).bind
        fun lc => update_counts lc [objB]).map
        (fun lc => (dictGet lc.tracked_ids 1, dictGet lc.tracked_ids 2)) =
      some (some ({1} : Finset Int), some ({1} : Finset Int)) := by
  rw [updateA]
  show (update_counts lcA [objB]).map _ = _
  rw [updateB]
  decide

/-- C1 (amended): once a track identifier has been added to lane L's counted
set it is never removed from that set by any later `update_counts` call (the
per-lane sets only grow, so the identifier is never reassigned away from L);
deduplication is per-lane only, and the same identifier may additionally be
added to a different lane's set when its later centroid lies in that lane's
polygon (as the counterexample exhibits). -/
theorem c1_first_attribution (lc : LaneCounter) (objs : List TObj)
    (lc' : LaneCounter) (h : update_counts lc objs = some lc') (l : Nat)
    (s : Finset Int) (hl : dictGet lc.tracked_ids l = some s) :
    ∃ s', dictGet lc'.tracked_ids l = some s' ∧ s ⊆ s' :=
  update_counts_tracked_mono objs lc lc' h l s hl

/-- C1 witness: the amended theorem applied to the concrete second call —
lane 1's set `{1}` survives (as a subset) the call that also counts the
track in lane 2. -/
theorem c1_first_attribution_witness :
    ∃ s', dictGet lcB.tracked_ids 1 = some s' ∧ ({1} : Finset Int) ⊆ s' :=
  c1_first_attribution lcA [objB] lcB updateB 1 {1} (by decide)

/-- C3: re-attribution is idempotent. (a) An `updateStep` on an object whose
resolved lane already contains its track identifier returns the state
unchanged (so the lane's count and counted set are untouched); (b) a whole
`update_counts` call re-presented to the state it produced is a no-op. -/
theorem c3_idempotent :
    (∀ (lc : LaneCounter) (o : TObj) (L : Nat) (s : Finset Int),
      assign_lane lc o.bbox = some L → dictGet lc.tracked_ids L = some s →
        o.track_id ∈ s → updateStep lc o = some lc) ∧
    (∀ (lc : LaneCounter) (objs : List TObj) (lc' : LaneCounter),
      update_counts lc objs = some lc' → update_counts lc' objs = some lc') := by
  constructor
  · intro lc o L s ha hs hm
    exact updateStep_noop_of_mem lc o L s ha hs hm
  · intro lc objs lc' h
    exact update_counts_noop_of_settled objs lc'
      (update_counts_settled_all objs lc lc' h)

/-- C3 witness: concrete idempotence — re-presenting `objA` to the state
that already counted it changes nothing. -/
theorem c3_idempotent_witness :
    updateStep lcA objA = some lcA ∧ update_counts lcA [objA] = some lcA :=
  ⟨c3_idempotent.1 lcA objA 1 {1} assignA2 (by decide) (by decide),
   c3_idempotent.2 (LaneCounter.init lanesEx) [objA] lcA updateA⟩

/-- C4: at construction every lane's count is `0 = card ∅`; the
count-equals-cardinality invariant is preserved by every `update_counts`
call; and no call ever decreases any lane's stored count. -/
theorem c4_count_invariant :
    (∀ lanes, CountInv (LaneCounter.init lanes)) ∧
    (∀ (lc : LaneCounter) (objs : List TObj) (lc' : LaneCounter),
      CountInv lc → update_counts lc objs = some lc' → CountInv lc') ∧
    (∀ (lc : LaneCounter) (objs : List TObj) (lc' : LaneCounter)
      (l c : Nat), update_counts lc objs = some lc' →
        dictGet lc.counts l = some c →
          ∃ c', dictGet lc'.counts l = some c' ∧ c ≤ c') := by
  refine ⟨?_, ?_, ?_⟩
  · intro lanes l s c hts hcs
    have hs := dictGet_map_const lanes (∅ : Finset Int) l s hts
    have hc := dictGet_map_const lanes (0 : Nat) l c hcs
    rw [hs, hc]
    simp
  · intro lc objs lc' inv h
    exact update_counts_countInv objs lc lc' h inv
  · intro lc objs lc' l c h hc
    exact update_counts_counts_mono objs lc lc' h l c hc

/-- C4 witness: the invariant holds for the concrete state after counting
`objA`, and lane 1's count did not decrease across that call. -/
theorem c4_count_invariant_witness :
    CountInv lcA ∧ (∃ c', dictGet lcA.counts 1 = some c' ∧ 0 ≤ c') :=
  ⟨c4_count_invariant.2.1 (LaneCounter.init lanesEx) [objA] lcA
      (c4_count_invariant.1 lanesEx) updateA,
   c4_count_invariant.2.2 (LaneCounter.init lanesEx) [objA] lcA 1 0
      updateA (by decide)⟩

/-- C10: `assign_lane` only ever returns a configured lane identifier; the
key sets of the `counts` and `tracked_ids` dicts equal the configured lane
identifiers at construction; and from any such well-keyed state every
`update_counts` call succeeds (no dict read misses a key) and leaves the
`counts` key set equal to the configured lane identifiers. -/
theorem c10_key_safety :
    (∀ (lc : LaneCounter) (b : Box) (L : Nat),
      assign_lane lc b = some L → L ∈ lc.lanes.map Prod.fst) ∧
    (∀ lanes, KeysWF (LaneCounter.init lanes)) ∧
    (∀ (lc : LaneCounter) (objs : List TObj), KeysWF lc →
      ∃ lc', update_counts lc objs = some lc' ∧
        lc'.counts.map Prod.fst = lc.lanes.map Prod.fst ∧ KeysWF lc') := by
  refine ⟨?_, ?_, ?_⟩
  · intro lc b L h
    exact findLane_mem lc.lanes (centroid b) L h
  · intro lanes
    constructor <;> simp [LaneCounter.init, List.map_map, Function.comp]
  · intro lc objs wf
    obtain ⟨lc', h, wf', hl⟩ := update_counts_total objs lc wf
    exact ⟨lc', h, by rw [wf'.1, hl], wf'⟩

/-- C10 witness: concrete key safety on `lanesEx` — the assigned lane is a
configured key and the update succeeds with the configured key set. -/
theorem c10_key_safety_witness :
    (1 ∈ lanesEx.map Prod.fst) ∧
    (∃ lc', update_counts (LaneCounter.init lanesEx) [objA] = some lc' ∧
      lc'.counts.map Prod.fst = lanesEx.map Prod.fst ∧ KeysWF lc') :=
  ⟨c10_key_safety.1 (LaneCounter.init lanesEx) boxA 1 assignA,
   c10_key_safety.2.2 (LaneCounter.init lanesEx) [objA] ⟨by decide, by decide⟩⟩

/-- C5: `assign_lane` computes the integer-truncated midpoint centroid and
searches the configured lanes in their fixed stored order, returning the
first lane whose polygon contains the centroid (boundary points included)
and `None` when no polygon contains it; concretely, a boundary centroid is
a member, a centroid inside two overlapping polygons resolves to the
first-in-order (lower-identifier) lane, and an uncontained centroid gives
`None`. -/
theorem c5_assign_lane :
    (∀ (lc : LaneCounter) (b : Box),
      assign_lane lc b =
        findLane lc.lanes
          (truncQ ((b.x1 + b.x2) / 2), truncQ ((b.y1 + b.y2) / 2))) ∧
    (∀ (lanes : List (Nat × Polygon)) (p : PtI) (L : Nat),
      findLane lanes p = some L →
        ∃ pre poly post, lanes = pre ++ (L, poly) :: post ∧
          pointInPoly poly p = true ∧ ∀ q ∈ pre, pointInPoly q.2 p = false) ∧
    (∀ (lanes : List (Nat × Polygon)) (p : PtI),
      findLane lanes p = none ↔ ∀ q ∈ lanes, pointInPoly q.2 p = false) ∧
    assign_lane (LaneCounter.init lanesEx) ⟨0, 4, 0, 6⟩ = some 1 ∧
    assign_lane (LaneCounter.init lanesOv) ⟨6, 2, 8, 4⟩ = some 1 ∧
    assign_lane (LaneCounter.init lanesEx) ⟨40, 40, 44, 44⟩ = none := by
  refine ⟨fun lc b => rfl, findLane_split, findLane_none_iff, ?_, ?_, ?_⟩
  · show findLane lanesEx (centroid ⟨0, 4, 0, 6⟩) = some 1
    rw [show centroid ⟨0, 4, 0, 6⟩ = (0, 5) by norm_num [centroid, truncQ]]
    decide
  · show findLane lanesOv (centroid ⟨6, 2, 8, 4⟩) = some 1
    rw [show centroid ⟨6, 2, 8, 4⟩ = (7, 3) by norm_num [centroid, truncQ]]
    decide
  · show findLane lanesEx (centroid ⟨40, 40, 44, 44⟩) = none
    rw [show centroid ⟨40, 40, 44, 44⟩ = (42, 42) by norm_num [centroid, truncQ]]
    decide

/-- C5 witness: the first-match characterization applied at the concrete
point `(3, 3)`, which lane 1 of `lanesEx` contains. -/
theorem c5_assign_lane_witness :
    ∃ pre poly post, lanesEx = pre ++ (1, poly) :: post ∧
      pointInPoly poly (3, 3) = true ∧
      ∀ q ∈ pre, pointInPoly q.2 (3, 3) = false :=
  c5_assign_lane.2.1 lanesEx (3, 3) 1 (by decide)

/-- C6: for each tracked box, reconciliation keeps the (truncated) track
identifier and box, scans the detections in original list order, and
attaches the confidence and class of the first detection whose IoU exceeds
0.5; when no detection clears the threshold — in particular when the
detection list is empty — the confidence and class fields are null. -/
theorem c6_reconcile :
    (∀ (dets : List Det) (tracks : List Track),
      vehicleUpdate dets tracks = tracks.map (reconcileOne dets)) ∧
    (∀ (dets : List Det) (t : Track),
      (reconcileOne dets t).track_id = truncQ t.tid ∧
        (reconcileOne dets t).bbox = t.bbox) ∧
    (∀ (dets : List Det) (t : Track),
      (∀ d ∈ dets, iouQ d.bbox t.bbox ≤ 1 / 2) →
        reconcileOne dets t = ⟨truncQ t.tid, t.bbox, none, none, none⟩) ∧
    (∀ (pre : List Det) (d : Det) (post : List Det) (t : Track),
      (∀ d' ∈ pre, iouQ d'.bbox t.bbox ≤ 1 / 2) → iouQ d.bbox t.bbox > 1 / 2 →
        reconcileOne (pre ++ d :: post) t =
          ⟨truncQ t.tid, t.bbox, some d.confidence, some d.class_id,
            some d.class_name⟩) ∧
    (∀ t : Track, reconcileOne [] t = ⟨truncQ t.tid, t.bbox, none, none, none⟩) := by
  refine ⟨fun dets tracks => rfl, ?_, ?_, ?_, fun t => rfl⟩
  · intro dets t
    unfold reconcileOne
    cases findMatch dets t.bbox <;> exact ⟨rfl, rfl⟩
  · intro dets t hall
    unfold reconcileOne
    rw [(findMatch_none_iff dets t.bbox).mpr hall]
  · intro pre d post t hpre hd
    unfold reconcileOne
    rw [findMatch_first pre d post t.bbox hpre hd]

/-- C6 witness: the spec's two reconciliation scenarios — detection
`[0,0,10,10]` against tracked box `[1,1,11,11]` (IoU `50/71 > 1/2`) attaches
the detection's metadata, and an empty / non-matching detection list leaves
the fields null. -/
theorem c6_reconcile_witness :
    reconcileOne ([] ++ detCar :: []) trackBox7 =
      ⟨truncQ trackBox7.tid, trackBox7.bbox, some detCar.confidence,
        some detCar.class_id, some detCar.class_name⟩ ∧
    reconcileOne [detFar] trackBox7 =
      ⟨truncQ trackBox7.tid, trackBox7.bbox, none, none, none⟩ :=
  ⟨c6_reconcile.2.2.2.1 [] detCar [] trackBox7 (by simp)
      (by norm_num [iouQ, interQ, areaQ, detCar, trackBox7, min_def, max_def]),
   c6_reconcile.2.2.1 [detFar] trackBox7 (by
      intro d hd
      rw [List.mem_singleton.mp hd]
      norm_num [iouQ, interQ, areaQ, detFar, trackBox7, min_def, max_def])⟩

/-- C7: `_compute_iou` returns exactly 1 on any valid box against itself;
a zero intersection area yields 0 through the early-return branch (which
performs no division); and any nonzero intersection yields
intersection over (areaA + areaB − intersection), with areas in the
inclusive pixel-edge convention `(x2 − x1 + 1) * (y2 − y1 + 1)`. -/
theorem c7_iou :
    (∀ a : Box, a.x1 < a.x2 → a.y1 < a.y2 → iouQ a a = 1) ∧
    (∀ a b : Box, interQ a b = 0 → iouQ a b = 0) ∧
    (∀ a b : Box, interQ a b ≠ 0 →
      iouQ a b = interQ a b / (areaQ a + areaQ b - interQ a b)) := by
  refine ⟨?_, ?_, ?_⟩
  · intro a hx hy
    have hxx : (0 : ℚ) < a.x2 - a.x1 + 1 := by linarith
    have hyy : (0 : ℚ) < a.y2 - a.y1 + 1 := by linarith
    have hinter : interQ a a = areaQ a := by
      unfold interQ areaQ
      rw [min_self, min_self, max_self, max_self,
        max_eq_right hxx.le, max_eq_right hyy.le]
    have hpos : 0 < areaQ a := mul_pos hxx hyy
    unfold iouQ
    rw [hinter, if_neg hpos.ne']
    rw [show areaQ a + areaQ a - areaQ a = areaQ a by ring]
    exact div_self hpos.ne'
  · intro a b h
    unfold iouQ
    rw [if_pos h]
  · intro a b h
    unfold iouQ
    rw [if_neg h]

/-- C7 witness: IoU of the concrete valid box `[0,0,10,10]` with itself is 1,
and IoU with the disjoint box `[100,100,110,110]` is 0. -/
theorem c7_iou_witness :
    iouQ ⟨0, 0, 10, 10⟩ ⟨0, 0, 10, 10⟩ = 1 ∧
    iouQ ⟨0, 0, 10, 10⟩ ⟨100, 100, 110, 110⟩ = 0 :=
  ⟨c7_iou.1 ⟨0, 0, 10, 10⟩ (by norm_num) (by norm_num),
   c7_iou.2.1 ⟨0, 0, 10, 10⟩ ⟨100, 100, 110, 110⟩
     (by norm_num [interQ, min_def, max_def])⟩

/-- C2 counterexample: the claim says all four resources — input stream,
output writer, progress indicator and on-disk CSV log — are released exactly
once on every exit path, including an unexpected exception in the per-frame
body. The `finally` block of `VideoProcessor.run` covers only the first
three; `main` closes the CSV logger after `run` returns, outside any
`try`/`finally`, so on a run whose first frame body raises, the exception
propagates and the CSV log is closed zero times. -/
theorem c2_counterexample :
    (pipeline lanesEx 30 [(FrameSig.exc, [])]).capReleased = 1 ∧
    (pipeline lanesEx 30 [(FrameSig.exc, [])]).outReleased = 1 ∧
    (pipeline lanesEx 30 [(FrameSig.exc, [])]).pbarClosed = 1 ∧
    (pipeline lanesEx 30 [(FrameSig.exc, [])]).excPropagated = true ∧
    (pipeline lanesEx 30 [(FrameSig.exc, [])]).csvClosed = 0 := by
  refine ⟨rfl, rfl, rfl, ?_, ?_⟩ <;> decide

/-- C2 (amended): on every run — natural end of stream, user quit,
`KeyboardInterrupt`, or an unexpected exception in the per-frame body — the
input stream, the output writer and the progress indicator are each released
exactly once; the CSV log is closed exactly once on the paths where `run`
returns (the first three) and zero times when an unexpected exception
propagates out of `run`. -/
theorem c2_resource_release (lanes : List (Nat × Polygon)) (fps : ℚ)
    (frames : List (FrameSig × List TObj)) :
    (pipeline lanes fps frames).capReleased = 1 ∧
    (pipeline lanes fps frames).outReleased = 1 ∧
    (pipeline lanes fps frames).pbarClosed = 1 ∧
    (pipeline lanes fps frames).csvClosed =
      (if (pipeline lanes fps frames).excPropagated then 0 else 1) :=
  ⟨rfl, rfl, rfl, rfl⟩

/-- C8 counterexample: the claim asserts exactly one log record per
(tracked object, frame) pair whose lane membership is non-none, but the
quit-keypress check in `VideoProcessor.run` sits between writing the frame
and the CSV step. On a run whose only frame sees the quit keypress, the
frame body runs through counting and the frame is written to the output
video (track 1 resolves to lane 1 and lane 1's count becomes 1), yet the
CSV file holds only the header — zero records for that lane-resolved
(object, frame) pair. -/
theorem c8_counterexample :
    (pipeline lanesEx 30 [(FrameSig.quit, [objA])]).framesWritten = 1 ∧
    assign_lane (LaneCounter.init lanesEx) objA.bbox = some 1 ∧
    (pipeline lanesEx 30 [(FrameSig.quit, [objA])]).csvFile = [csvHeader] ∧
    (pipeline lanesEx 30 [(FrameSig.quit, [objA])]).finalCounts =
      [(1, 1), (2, 0)] := by
  have hrun : runLoop 30 (LaneCounter.init lanesEx) 0 0 []
      [(FrameSig.quit, [objA])] = ⟨lcA, 1, [], Outcome.userStopped⟩ := by
    simp only [runLoop, updateA]
  refine ⟨?_, assignA, ?_, ?_⟩
  · show (runLoop (30 : ℚ) (LaneCounter.init lanesEx) 0 0 []
        [(FrameSig.quit, [objA])]).written = 1
    rw [hrun]
  · show csvHeader ::
        (runLoop (30 : ℚ) (LaneCounter.init lanesEx) 0 0 []
          [(FrameSig.quit, [objA])]).rows.map rowCells = [csvHeader]
    rw [hrun]
    rfl
  · show (runLoop (30 : ℚ) (LaneCounter.init lanesEx) 0 0 []
        [(FrameSig.quit, [objA])]).lc.counts = [(1, 1), (2, 0)]
    rw [hrun]
    rfl

/-- C8 (amended): the CSV file is the header row followed, frame by frame
in order, by exactly one record per lane-resolved tracked object for every
frame whose per-frame body runs to completion; on the frame where the user
quits the preview, the frame is still counted and written to the output
video but its records are skipped (the quit break precedes the CSV step),
so a quit-terminated run's CSV carries records only for the preceding
completed frames. Per frame the number of records equals the number of
lane-resolved objects; each record carries the track identifier, lane
identifier, the 1-based frame index, and a timestamp obtained by truncating
`frame_index / frame_rate` to whole seconds, rendered as
hours:minutes:seconds (for any duration below one day). -/
theorem c8_csv :
    (∀ (lanes : List (Nat × Polygon)) (fps : ℚ) (objss : List (List TObj)),
      (pipeline lanes fps
          (objss.map fun objs => (FrameSig.normal, objs))).csvFile =
        csvHeader :: (specRows lanes fps 0 objss).map rowCells) ∧
    (∀ (lanes : List (Nat × Polygon)) (fps : ℚ) (objss : List (List TObj))
      (objsQ : List TObj),
      (pipeline lanes fps
          ((objss.map fun objs => (FrameSig.normal, objs)) ++
            [(FrameSig.quit, objsQ)])).csvFile =
        csvHeader :: (specRows lanes fps 0 objss).map rowCells ∧
      (pipeline lanes fps
          ((objss.map fun objs => (FrameSig.normal, objs)) ++
            [(FrameSig.quit, objsQ)])).framesWritten = objss.length + 1) ∧
    (∀ (lanes : List (Nat × Polygon)) (fps : ℚ) (idx : Nat)
      (objs : List TObj),
      (frameRows lanes fps idx objs).length =
        (objs.filter fun o =>
          (findLane lanes (centroid o.bbox)).isSome).length) ∧
    (∀ n : Nat, n < 86400 → pythonTimedeltaStr n = hmsStr n) ∧
    (∀ (idx : Nat) (fps : ℚ), 0 < fps →
      (pySeconds idx fps : Int) = ⌊(idx : ℚ) / fps⌋) := by
  refine ⟨?_, ?_, frameRows_length, pythonTimedeltaStr_hms, pySeconds_floor⟩
  · intro lanes fps objss
    have wf0 : KeysWF (LaneCounter.init lanes) := by
      constructor <;> simp [LaneCounter.init, List.map_map, Function.comp]
    obtain ⟨lcF, hrun⟩ :=
      runLoop_normal lanes fps objss (LaneCounter.init lanes) 0 0 [] wf0 rfl
    show csvHeader ::
        (runLoop fps (LaneCounter.init lanes) 0 0 []
          (objss.map fun objs => (FrameSig.normal, objs))).rows.map rowCells = _
    rw [hrun]
    simp
  · intro lanes fps objss objsQ
    have wf0 : KeysWF (LaneCounter.init lanes) := by
      constructor <;> simp [LaneCounter.init, List.map_map, Function.comp]
    obtain ⟨lcF, hrun⟩ := runLoop_normal_quit lanes fps objss objsQ
      (LaneCounter.init lanes) 0 0 [] wf0 rfl
    constructor
    · show csvHeader ::
          (runLoop fps (LaneCounter.init lanes) 0 0 []
            ((objss.map fun objs => (FrameSig.normal, objs)) ++
              [(FrameSig.quit, objsQ)])).rows.map rowCells = _
      rw [hrun]
      simp
    · show (runLoop fps (LaneCounter.init lanes) 0 0 []
          ((objss.map fun objs => (FrameSig.normal, objs)) ++
            [(FrameSig.quit, objsQ)])).written = objss.length + 1
      rw [hrun]
      show 0 + objss.length + 1 = objss.length + 1
      omega

/-- C8 witness: the timestamp lemmas applied at a concrete duration and a
concrete frame/rate pair. -/
theorem c8_csv_witness :
    pythonTimedeltaStr 3725 = hmsStr 3725 ∧
    (pySeconds 90 (30 : ℚ) : Int) = ⌊((90 : Nat) : ℚ) / (30 : ℚ)⌋ :=
  ⟨c8_csv.2.2.2.1 3725 (by decide), c8_csv.2.2.2.2 90 30 (by norm_num)⟩

/-- C9 counterexample: the claim says a placeholder class name is shown when
the class is missing. The annotation label uses
`obj.get("class_name", "vehicle")`, whose default fires only when the key is
absent; tracker output always carries the key, with value `None` for
unmatched tracks, so the label renders the Python text `None` instead of the
placeholder (the confidence part does render `0.00`). -/
theorem c9_counterexample :
    labelOf objNoConf = "ID 7 None 0.00" ∧
    labelOf objNoConf ≠ "ID 7 vehicle 0.00" := by
  have h0 : confValue objNoConf = 0 := rfl
  have hf : fmt2 (confValue objNoConf) = "0.00" := by
    rw [h0]
    have h : (⌊(0 : ℚ) * 100 + 1 / 2⌋ : Int) = 0 := by norm_num
    simp only [fmt2, h]
    decide
  constructor
  · show "ID " ++ toString objNoConf.track_id ++ " " ++ classDisplay objNoConf
        ++ " " ++ fmt2 (confValue objNoConf) = "ID 7 None 0.00"
    rw [hf]
    decide
  · show "ID " ++ toString objNoConf.track_id ++ " " ++ classDisplay objNoConf
        ++ " " ++ fmt2 (confValue objNoConf) ≠ "ID 7 vehicle 0.00"
    rw [hf]
    decide

/-- C9 (amended): every label renders the confidence numerically with two
decimals — exactly `0.00` whenever the confidence is absent or null, never a
null or blank value; the `vehicle` placeholder class is shown only when the
class_name key is absent, and a present-but-null class (the tracker's shape
for unmatched tracks) renders as `None`. -/
theorem c9_label :
    (∀ o : PFObj, o.confidence = none ∨ o.confidence = some none →
      fmt2 (confValue o) = "0.00") ∧
    (∀ o : PFObj,
      labelOf o = "ID " ++ toString o.track_id ++ " " ++ classDisplay o ++
        " " ++ fmt2 (confValue o)) ∧
    (∀ o : PFObj, o.class_name = none → classDisplay o = "vehicle") ∧
    (∀ o : PFObj, o.class_name = some none → classDisplay o = "None") := by
  refine ⟨?_, fun o => rfl, ?_, ?_⟩
  · intro o h
    have h0 : confValue o = 0 := by
      rcases h with h | h <;> simp [confValue, h]
    rw [h0]
    have hfl : (⌊(0 : ℚ) * 100 + 1 / 2⌋ : Int) = 0 := by norm_num
    simp only [fmt2, hfl]
    decide
  · intro o h
    simp [classDisplay, h]
  · intro o h
    simp [classDisplay, h, pyStrOptStr]

/-- C9 witness: the amended theorem applied to the concrete unmatched-track
object. -/
theorem c9_label_witness :
    fmt2 (confValue objNoConf) = "0.00" ∧ classDisplay objNoConf = "None" :=
  ⟨c9_label.1 objNoConf (Or.inr rfl), c9_label.2.2.2 objNoConf rfl⟩
